import Mathlib

set_option maxRecDepth 2000

/-!
Shallow embedding of `src/cpu.rs` (NES CPU emulator core) and verification of
its specification claims.

Modelling conventions:
- Rust machine integers (`u8`, `u16`) are modelled as `Nat`; wrapping
  arithmetic (`wrapping_add`, `as u8`, `as u16` truncations, and release-mode
  `+` on `u16`) is written with an explicit `% 256` / `% 65536`.
- The memory field is declared `memory: [u8; 0xFFFF]` in the source, i.e. an
  array of 65535 bytes.  Rust array indexing panics when the index is not
  strictly below the length, so `mem_read` / `mem_write` return `Option`,
  with `none` standing for the panic.  All other fallible operations
  propagate this through the `Option` monad.
- The `run` loop is modelled with explicit fuel; `none` covers both fuel
  exhaustion and a panic (out-of-bounds access or the `todo!()` arm for an
  unrecognized opcode).
-/

namespace NesCpu

/-- Length of the CPU memory array as declared in the source
(`memory: [u8; 0xFFFF]`): 65535 bytes, one short of the full
16-bit address space. -/
def MEM_SIZE : Nat := 0xFFFF

/-- The `AddressingMode` enum of the source. -/
inductive AddressingMode where
  | Immediate
  | ZeroPage
  | ZeroPage_X
  | ZeroPage_Y
  | Absolute
  | Absolute_X
  | Absolute_Y
  | Indirect_X
  | Indirect_Y
  | NoneAddressing
deriving DecidableEq, Repr

/-- The `CPU` struct of the source.  Registers hold `u8` values and
`program_counter` a `u16` value; the byte/word ranges are tracked by
hypotheses where a theorem needs them.  The memory array is modelled as a
function from index to stored byte; only indices `< MEM_SIZE` are backed by
real storage, which `mem_read`/`mem_write` enforce. -/
structure CPU where
  register_a : Nat
  register_x : Nat
  register_y : Nat
  status : Nat
  memory : Nat → Nat
  program_counter : Nat
  stack_pointer : Nat

/-- `CPU::new()`: all-zero registers and a zeroed memory array. -/
def CPU.new : CPU :=
  { register_a := 0
    register_x := 0
    register_y := 0
    status := 0
    memory := fun _ => 0
    program_counter := 0
    stack_pointer := 0 }

/-- `mem_read`: `self.memory[addr as usize]`.  Indexing the 65535-byte array
panics unless `addr < MEM_SIZE`; the panic is `none`. -/
def CPU.mem_read (c : CPU) (addr : Nat) : Option Nat :=
  if addr < MEM_SIZE then some (c.memory addr) else none

/-- `mem_read_u16`: little-endian composition `(hi << 8) | lo` of the bytes at
`pos` and `pos + 1` (u16 successor, wrapping). -/
def CPU.mem_read_u16 (c : CPU) (pos : Nat) : Option Nat := do
  let lo ← c.mem_read pos
  let hi ← c.mem_read ((pos + 1) % 65536)
  return (hi <<< 8) ||| lo

/-- `mem_write`: `self.memory[addr as usize] = data`, panicking (`none`)
unless `addr < MEM_SIZE`. -/
def CPU.mem_write (c : CPU) (addr : Nat) (data : Nat) : Option CPU :=
  if addr < MEM_SIZE then
    some { c with memory := fun a => if a = addr then data else c.memory a }
  else none

/-- `mem_write_u16`: splits `data` into `hi = (data >> 8) as u8` and
`lo = (data & 0xff) as u8`, stores `lo` at `pos` first, then `hi` at
`pos + 1` (u16 successor, wrapping). -/
def CPU.mem_write_u16 (c : CPU) (pos : Nat) (data : Nat) : Option CPU := do
  let hi := (data >>> 8) % 256
  let lo := (data &&& 0xff) % 256
  let c ← c.mem_write pos lo
  c.mem_write ((pos + 1) % 65536) hi

/-- `reset()`: zero `register_a`, `register_x`, `status`, then load the
program counter from the reset vector at `0xFFFC`. -/
def CPU.reset (c : CPU) : Option CPU := do
  let c := { c with register_a := 0, register_x := 0, status := 0 }
  let pc ← c.mem_read_u16 0xFFFC
  return { c with program_counter := pc }

/-- Sequential byte stores underlying `copy_from_slice`: write the list of
bytes at consecutive addresses starting at `base`. -/
def writeBytes (m : Nat → Nat) (base : Nat) : List Nat → (Nat → Nat)
  | [] => m
  | b :: rest => writeBytes (fun a => if a = base then b else m a) (base + 1) rest

/-- `load(program)`: `self.memory[0x8000 .. 0x8000 + program.len()]
.copy_from_slice(&program)` followed by `mem_write_u16(0xFFFC, 0x8000)`.
The slice panics (before writing anything) when `0x8000 + len` exceeds the
array length `MEM_SIZE`; the panic is `none`. -/
def CPU.load (c : CPU) (program : List Nat) : Option CPU :=
  if 0x8000 + program.length ≤ MEM_SIZE then
    let c := { c with memory := writeBytes c.memory 0x8000 program }
    c.mem_write_u16 0xFFFC 0x8000
  else none

/-- `check_register_z_and_n(register)`: set/clear the Zero bit (bit 1) from
`register == 0`, then set/clear the Negative bit (bit 7) from bit 7 of
`register`. -/
def CPU.check_register_z_and_n (c : CPU) (register : Nat) : CPU :=
  let c :=
    if register = 0 then { c with status := c.status ||| 0x02 }
    else { c with status := c.status &&& 0xFD }
  if register &&& 0x80 ≠ 0 then { c with status := c.status ||| 0x80 }
  else { c with status := c.status &&& 0x7F }

/-- `get_operand_address(mode)`: the addressing-mode resolver.  `wrapping_add`
on `u8` is `% 256`, on `u16` is `% 65536`; an `as u8` truncation is `% 256`.
`NoneAddressing` panics (`none`). -/
def CPU.get_operand_address (c : CPU) (mode : AddressingMode) : Option Nat :=
  match mode with
  | .Immediate => some c.program_counter
  | .ZeroPage => c.mem_read c.program_counter
  | .Absolute => c.mem_read_u16 c.program_counter
  | .ZeroPage_X => do
      let pos ← c.mem_read c.program_counter
      return (pos + c.register_x) % 256
  | .ZeroPage_Y => do
      let pos ← c.mem_read c.program_counter
      return (pos + c.register_y) % 256
  | .Absolute_X => do
      let base ← c.mem_read_u16 c.program_counter
      return (base + c.register_x) % 65536
  | .Absolute_Y => do
      let base ← c.mem_read_u16 c.program_counter
      return (base + c.register_y) % 65536
  | .Indirect_X => do
      let base ← c.mem_read c.program_counter
      let ptr := (base % 256 + c.register_x) % 256
      let lo ← c.mem_read ptr
      let hi ← c.mem_read ((ptr + 1) % 256)
      return (hi <<< 8) ||| lo
  | .Indirect_Y => do
      let base ← c.mem_read c.program_counter
      let lo ← c.mem_read base
      let hi ← c.mem_read ((base % 256 + 1) % 256)
      let deref_base := (hi <<< 8) ||| lo
      return (deref_base + c.register_y) % 65536
  | .NoneAddressing => none

/-- `lda(mode)`: resolve the effective address, read the operand byte into
`register_a`, update the Zero/Negative flags from `register_a`. -/
def CPU.lda (c : CPU) (mode : AddressingMode) : Option CPU := do
  let addr ← c.get_operand_address mode
  let value ← c.mem_read addr
  let c := { c with register_a := value }
  return c.check_register_z_and_n c.register_a

/-- `tax()`: copy `register_a` into `register_x`, update flags from
`register_x`. -/
def CPU.tax (c : CPU) : CPU :=
  let c := { c with register_x := c.register_a }
  c.check_register_z_and_n c.register_x

/-- `inx()`: `register_x.wrapping_add(1)`, update flags from `register_x`. -/
def CPU.inx (c : CPU) : CPU :=
  let c := { c with register_x := (c.register_x + 1) % 256 }
  c.check_register_z_and_n c.register_x

/-- Outcome of one iteration of the dispatch loop: continue running, or
return from `run` (opcode `0x00`). -/
inductive StepResult where
  | Continue (c : CPU)
  | Halted (c : CPU)

/-- State carried by a `StepResult`. -/
def StepResult.cpu : StepResult → CPU
  | .Continue c => c
  | .Halted c => c

/-- True exactly on the `Halted` outcome. -/
def StepResult.isHalted : StepResult → Bool
  | .Continue _ => false
  | .Halted _ => true

/-- One iteration of the `run` loop: fetch the opcode at `program_counter`,
advance the counter past the opcode byte, dispatch.  Operand-byte skipping
(`+ 1` for immediate/zero-page `lda`, `+ 2` for absolute `lda`) happens here
in the loop, after the handler returns.  The `todo!()` arm for an
unrecognized opcode panics (`none`). -/
def CPU.step (c : CPU) : Option StepResult := do
  let opcode ← c.mem_read c.program_counter
  let c := { c with program_counter := (c.program_counter + 1) % 65536 }
  if opcode = 0xAA then
    return .Continue c.tax
  else if opcode = 0xA9 then
    let c ← c.lda .Immediate
    return .Continue { c with program_counter := (c.program_counter + 1) % 65536 }
  else if opcode = 0xA5 then
    let c ← c.lda .ZeroPage
    return .Continue { c with program_counter := (c.program_counter + 1) % 65536 }
  else if opcode = 0xAD then
    let c ← c.lda .Absolute
    return .Continue { c with program_counter := (c.program_counter + 2) % 65536 }
  else if opcode = 0xE8 then
    return .Continue c.inx
  else if opcode = 0x00 then
    return .Halted c
  else
    none

/-- `run()`: iterate `step` until the `0x00` return, with explicit fuel
bounding the number of loop iterations. -/
def CPU.run : Nat → CPU → Option CPU
  | 0, _ => none
  | fuel + 1, c =>
    match c.step with
    | none => none
    | some (.Halted c') => some c'
    | some (.Continue c') => CPU.run fuel c'

/-- Starting state of end-to-end scenario 4 (`test_inx_overflow`): a fresh
CPU after `load(vec![0xE8, 0xE8, 0x00])`, `reset()`, and presetting
`register_x = 0xFF`. -/
def scenario4_start : Option CPU :=
  (CPU.new.load [0xE8, 0xE8, 0x00]).bind fun c =>
    (c.reset).map fun c => { c with register_x := 0xFF }

/-! Helper lemmas about the bit-level arithmetic used by the embedding. -/

/-- Little-endian composition: when the low byte is in range, the source's
`(hi << 8) | lo` equals the arithmetic value `256 * hi + lo`. -/
theorem shiftLeft_or_eq (hi lo : Nat) (h : lo < 256) :
    (hi <<< 8) ||| lo = 256 * hi + lo := by
  rw [Nat.shiftLeft_eq]
  have := Nat.mul_add_lt_is_or (i := 8) (b := lo) (by simpa using h) hi
  simpa [Nat.mul_comm] using this.symm

/-- Bits of the Zero-flag mask `0b0000_0010`. -/
theorem testBit_two (i : Nat) : Nat.testBit 2 i = decide (i = 1) := by
  have := @Nat.testBit_two_pow 1 i
  simpa [eq_comm] using this

/-- Bits of the Negative-flag mask `0b1000_0000`. -/
theorem testBit_x80 (i : Nat) : Nat.testBit 0x80 i = decide (i = 7) := by
  have := @Nat.testBit_two_pow 7 i
  simpa [eq_comm] using this

/-- Bits of the Negative-clearing mask `0b0111_1111`. -/
theorem testBit_x7F (i : Nat) : Nat.testBit 0x7F i = decide (i < 7) := by
  have := Nat.testBit_two_pow_sub_one 7 i
  simpa using this

/-- Bits of the Zero-clearing mask `0b1111_1101`. -/
theorem testBit_xFD (i : Nat) : Nat.testBit 0xFD i = decide (i ≠ 1 ∧ i < 8) := by
  match i with
  | 0 | 1 | 2 | 3 | 4 | 5 | 6 | 7 => decide
  | i + 8 =>
    have h : (0xFD : Nat) < 2 ^ (i + 8) := by
      calc (0xFD : Nat) < 2 ^ 8 := by norm_num
        _ ≤ 2 ^ (i + 8) := Nat.pow_le_pow_right (by norm_num) (by omega)
    rw [Nat.testBit_lt_two_pow h]
    simp

/-- For a byte value, the source's Negative test `v & 0b1000_0000 != 0` is
exactly `0x80 ≤ v`. -/
theorem and_x80_ne_zero_iff (v : Nat) (hv : v < 256) :
    (v &&& 0x80 ≠ 0) ↔ 0x80 ≤ v := by
  rw [show (0x80 : Nat) = 2 ^ 7 by norm_num, Nat.and_two_pow]
  rcases h : v.testBit 7 <;>
    simp only [Nat.testBit_to_div_mod, decide_eq_true_eq, decide_eq_false_iff_not] at h <;>
    simp <;> omega

/-- Success condition for a 16-bit store: both byte stores must hit real
storage. -/
theorem mem_write_u16_isSome (c : CPU) (pos data : Nat)
    (h1 : pos < MEM_SIZE) (h2 : (pos + 1) % 65536 < MEM_SIZE) :
    (c.mem_write_u16 pos data).isSome = true := by
  simp [CPU.mem_write_u16, CPU.mem_write, h1, h2]

/-! Claim theorems. -/

/-- C1.  The claim states that `mem_read` is total because the memory array
is exactly 65536 bytes.  The source declares `memory: [u8; 0xFFFF]` — 65535
bytes — so the 16-bit address `0xFFFF` indexes past the end of the array and
`mem_read(0xFFFF)` panics (modelled as `none`) on every CPU instance,
refuting totality. -/
theorem mem_read_not_total :
    MEM_SIZE = 0xFFFF ∧ ∀ c : CPU, c.mem_read 0xFFFF = none :=
  ⟨rfl, fun c => by simp [CPU.mem_read, MEM_SIZE]⟩

/-- C2.  The claim allows any program of length up to `0x10000 - 0x8000 =
0x8000` bytes.  Because the memory array is 65535 bytes, `load` panics
(`none`, with no partial write) already at length `0x8000`, while length
`0x7FFF` is the largest that succeeds. -/
theorem load_rejects_at_claimed_bound :
    CPU.new.load (List.replicate 0x8000 0) = none ∧
    (CPU.new.load (List.replicate 0x7FFF 0)).isSome = true := by
  constructor
  · unfold CPU.load
    rw [List.length_replicate, if_neg]
    norm_num [MEM_SIZE]
  · unfold CPU.load
    rw [List.length_replicate, if_pos (by norm_num [MEM_SIZE])]
    exact mem_write_u16_isSome _ 0xFFFC 0x8000 (by norm_num [MEM_SIZE])
      (by norm_num [MEM_SIZE])

/-- C7.  The claim asserts the `mem_write_u16`/`mem_read_u16` round-trip for
every address.  At `pos = 0xFFFE` the high-byte store indexes `0xFFFF`, past
the end of the 65535-byte array, so the write panics (`none`); at an
in-range address such as `0x1000` the round-trip does return the value
written. -/
theorem mem_write_u16_fails_at_xFFFE :
    (CPU.new.mem_write_u16 0xFFFE 0xABCD = none) ∧
    ((CPU.new.mem_write_u16 0x1000 0xABCD).bind
      (fun c => c.mem_read_u16 0x1000) = some 0xABCD) := by
  exact ⟨rfl, rfl⟩

/-- C8.  End-to-end scenario 4: after loading `[0xE8, 0xE8, 0x00]`,
resetting, and presetting `register_x = 0xFF`, the run halts normally with
`register_x = 0x01`; the first increment wraps `0xFF` to `0x00` with Zero
set and Negative clear, the second yields `0x01` with both clear, and the
third step fetches `0x00` and halts. -/
theorem scenario4_inx_wraps :
    ((scenario4_start.bind (CPU.run 3)).map CPU.register_x = some 0x01) ∧
    ((scenario4_start.bind CPU.step).map (fun r =>
        (r.cpu.register_x, r.cpu.status.testBit 1, r.cpu.status.testBit 7, r.isHalted))
      = some (0x00, true, false, false)) ∧
    (((scenario4_start.bind CPU.step).bind (fun r => r.cpu.step)).map (fun r =>
        (r.cpu.register_x, r.cpu.status.testBit 1, r.cpu.status.testBit 7, r.isHalted))
      = some (0x01, false, false, false)) ∧
    ((((scenario4_start.bind CPU.step).bind (fun r => r.cpu.step)).bind
        (fun r => r.cpu.step)).map StepResult.isHalted = some true) :=
  ⟨rfl, rfl, rfl, rfl⟩

/-- C3.  `check_register_z_and_n(v)` sets bit 1 of `status` iff `v = 0`,
sets bit 7 iff `v >= 0x80` (bit 7 of `v` set), and leaves the other six
bits of the status byte exactly as they were; the two updated bits depend
only on `v`. -/
theorem check_register_z_and_n_spec (c : CPU) (v : Nat)
    (hv : v < 256) (hs : c.status < 256) :
    (((c.check_register_z_and_n v).status.testBit 1) ↔ v = 0) ∧
    (((c.check_register_z_and_n v).status.testBit 7) ↔ 0x80 ≤ v) ∧
    (∀ i, i ≠ 1 → i ≠ 7 →
      (c.check_register_z_and_n v).status.testBit i = c.status.testBit i) := by
  have hstat : (c.check_register_z_and_n v).status =
      if v &&& 0x80 ≠ 0 then
        ((if v = 0 then c.status ||| 0x02 else c.status &&& 0xFD) ||| 0x80)
      else
        ((if v = 0 then c.status ||| 0x02 else c.status &&& 0xFD) &&& 0x7F) := by
    unfold CPU.check_register_z_and_n
    by_cases hz : v = 0 <;> by_cases hn : v &&& 0x80 ≠ 0 <;> simp [hz, hn]
  rw [hstat]
  have hn_iff : (v &&& 0x80 ≠ 0) ↔ 0x80 ≤ v := and_x80_ne_zero_iff v hv
  by_cases hn : v &&& 0x80 ≠ 0 <;> by_cases hz : v = 0
  · exact absurd hn (by subst hz; decide)
  · rw [if_pos hn, if_neg hz]
    refine ⟨?_, ?_, ?_⟩
    · simp [Nat.testBit_or, Nat.testBit_and, testBit_x80, testBit_xFD, hz]
    · simp [Nat.testBit_or, testBit_x80, hn_iff.mp hn]
    · intro i h1 h7
      simp only [Nat.testBit_or, Nat.testBit_and, testBit_x80, testBit_xFD]
      rcases Nat.lt_or_ge i 8 with hi | hi
      · have d1 : decide (i = 7) = false := by simp [h7]
        have d2 : decide (i ≠ 1 ∧ i < 8) = true := by simp [h1, hi]
        simp [d1, d2]
      · have hsb : c.status.testBit i = false :=
          Nat.testBit_lt_two_pow (lt_of_lt_of_le hs
            (le_trans (by norm_num) (Nat.pow_le_pow_right (by norm_num) hi)))
        have d1 : decide (i = 7) = false := by simp [h7]
        have d2 : decide (i ≠ 1 ∧ i < 8) = false := by simp; omega
        simp [d1, d2, hsb]
  · rw [if_neg hn, if_pos hz]
    refine ⟨?_, ?_, ?_⟩
    · simp [Nat.testBit_or, Nat.testBit_and, testBit_two, testBit_x7F, hz]
    · have : ¬ (0x80 ≤ v) := by subst hz; omega
      simp [Nat.testBit_and, testBit_x7F, this]
    · intro i h1 h7
      simp only [Nat.testBit_or, Nat.testBit_and, testBit_two, testBit_x7F]
      rcases Nat.lt_or_ge i 8 with hi | hi
      · have d1 : decide (i = 1) = false := by simp [h1]
        rcases Nat.lt_or_ge i 7 with hi7 | hi7
        · simp [d1, hi7]
        · have : i = 7 := by omega
          exact absurd this h7
      · have hsb : c.status.testBit i = false :=
          Nat.testBit_lt_two_pow (lt_of_lt_of_le hs
            (le_trans (by norm_num) (Nat.pow_le_pow_right (by norm_num) hi)))
        have d1 : decide (i = 1) = false := by simp [h1]
        have d3 : decide (i < 7) = false := by simp; omega
        simp [d1, d3, hsb]
  · rw [if_neg hn, if_neg hz]
    refine ⟨?_, ?_, ?_⟩
    · simp [Nat.testBit_and, testBit_xFD, testBit_x7F, hz]
    · have : ¬ (0x80 ≤ v) := by rw [← hn_iff]; simpa using hn
      simp [Nat.testBit_and, testBit_x7F, this]
    · intro i h1 h7
      simp only [Nat.testBit_and, testBit_xFD, testBit_x7F]
      rcases Nat.lt_or_ge i 8 with hi | hi
      · have d2 : decide (i ≠ 1 ∧ i < 8) = true := by simp [h1, hi]
        rcases Nat.lt_or_ge i 7 with hi7 | hi7
        · simp [d2, hi7]
        · have : i = 7 := by omega
          exact absurd this h7
      · have hsb : c.status.testBit i = false :=
          Nat.testBit_lt_two_pow (lt_of_lt_of_le hs
            (le_trans (by norm_num) (Nat.pow_le_pow_right (by norm_num) hi)))
        simp [hsb]

/-- Witness for C3 at `v = 5` on a fresh CPU. -/
theorem check_register_z_and_n_spec_witness :
    (5 : Nat) < 256 ∧ CPU.new.status < 256 ∧
    (((CPU.new.check_register_z_and_n 5).status.testBit 1) ↔ (5 : Nat) = 0) ∧
    (((CPU.new.check_register_z_and_n 5).status.testBit 7) ↔ 0x80 ≤ (5 : Nat)) :=
  ⟨by decide, by decide,
   (check_register_z_and_n_spec CPU.new 5 (by decide) (by decide)).1,
   (check_register_z_and_n_spec CPU.new 5 (by decide) (by decide)).2.1⟩

/-- Zero-page indices stay inside the memory array. -/
theorem mod256_lt_mem (n : Nat) : n % 256 < MEM_SIZE :=
  lt_trans (Nat.mod_lt _ (by norm_num)) (by norm_num [MEM_SIZE])

/-- C4.  Indirect,X: with operand byte `p` at the program counter and index
`x = register_x`, the resolver returns the little-endian value whose low
byte sits at zero-page address `(p + x) % 256` and whose high byte sits at
`((p + x) % 256 + 1) % 256` — the pointer's successor wraps within 8 bits
and never crosses into page 1. -/
theorem indirect_x_resolves_zero_page_wrapped (c : CPU)
    (hpc : c.program_counter < MEM_SIZE)
    (hm : ∀ a, c.memory a < 256) :
    c.get_operand_address .Indirect_X =
      some (256 * c.memory (((c.memory c.program_counter + c.register_x) % 256 + 1) % 256)
        + c.memory ((c.memory c.program_counter + c.register_x) % 256)) := by
  have hb : c.memory c.program_counter % 256 = c.memory c.program_counter :=
    Nat.mod_eq_of_lt (hm _)
  simp only [CPU.get_operand_address, CPU.mem_read, if_pos hpc, if_pos (mod256_lt_mem _)]
  simp only [Option.bind_eq_bind, Option.some_bind, pure, hb]
  rw [shiftLeft_or_eq _ _ (hm _)]

/-- Witness for C4 on a fresh CPU (all memory bytes 0, so the resolved
address is 0). -/
theorem indirect_x_resolves_zero_page_wrapped_witness :
    CPU.new.program_counter < MEM_SIZE ∧ (∀ a, CPU.new.memory a < 256) ∧
    CPU.new.get_operand_address .Indirect_X = some 0 :=
  ⟨by decide, fun _ => Nat.succ_pos 255, by
    have h := indirect_x_resolves_zero_page_wrapped CPU.new (by decide) (fun _ => Nat.succ_pos 255)
    simpa [CPU.new] using h⟩

/-- C5.  Indirect,Y: with operand byte `p` at the program counter, the
resolver returns the base assembled little-endian from the byte at
zero-page address `p` (low) and the byte at `(p + 1) % 256` (high, wrapped
at 8 bits), plus `register_y`, with 16-bit wraparound on the final
addition. -/
theorem indirect_y_resolves_zero_page_wrapped (c : CPU)
    (hpc : c.program_counter < MEM_SIZE)
    (hm : ∀ a, c.memory a < 256) :
    c.get_operand_address .Indirect_Y =
      some ((256 * c.memory ((c.memory c.program_counter + 1) % 256)
        + c.memory (c.memory c.program_counter) + c.register_y) % 65536) := by
  have hb : c.memory c.program_counter % 256 = c.memory c.program_counter :=
    Nat.mod_eq_of_lt (hm _)
  have hbase : c.memory c.program_counter < MEM_SIZE :=
    lt_trans (hm _) (by norm_num [MEM_SIZE])
  simp only [CPU.get_operand_address, CPU.mem_read, if_pos hpc, if_pos (mod256_lt_mem _)]
  simp only [Option.bind_eq_bind, Option.some_bind, pure, hb]
  simp only [if_pos hbase, Option.some_bind]
  rw [shiftLeft_or_eq _ _ (hm _)]

/-- Witness for C5 on a fresh CPU. -/
theorem indirect_y_resolves_zero_page_wrapped_witness :
    CPU.new.program_counter < MEM_SIZE ∧ (∀ a, CPU.new.memory a < 256) ∧
    CPU.new.get_operand_address .Indirect_Y = some 0 :=
  ⟨by decide, fun _ => Nat.succ_pos 255, by
    have h := indirect_y_resolves_zero_page_wrapped CPU.new (by decide) (fun _ => Nat.succ_pos 255)
    simpa [CPU.new] using h⟩

/-- C6.  `reset()` zeroes `register_a`, `register_x` and `status`, sets the
program counter to the little-endian 16-bit value stored at
`0xFFFC`-`0xFFFD`, and (record update) leaves `register_y`,
`stack_pointer` and every byte of memory unchanged. -/
theorem reset_spec (c : CPU) (h : c.memory 0xFFFC < 256) :
    c.reset = some { c with
      register_a := 0
      register_x := 0
      status := 0
      program_counter := 256 * c.memory 0xFFFD + c.memory 0xFFFC } := by
  have h1 : (0xFFFC : Nat) < MEM_SIZE := by norm_num [MEM_SIZE]
  have h2 : ((0xFFFC + 1) % 65536 : Nat) < MEM_SIZE := by norm_num [MEM_SIZE]
  simp only [CPU.reset, CPU.mem_read_u16, CPU.mem_read, if_pos h1, if_pos h2]
  simp only [Option.bind_eq_bind, Option.some_bind, pure]
  rw [shiftLeft_or_eq _ _ h]

/-- Witness for C6 on a fresh CPU. -/
theorem reset_spec_witness :
    CPU.new.memory 0xFFFC < 256 ∧
    CPU.new.reset = some { CPU.new with
      register_a := 0
      register_x := 0
      status := 0
      program_counter := 256 * CPU.new.memory 0xFFFD + CPU.new.memory 0xFFFC } :=
  ⟨by decide, reset_spec CPU.new (by decide)⟩

/-- Frame of the Flag Unit: `check_register_z_and_n` touches only `status`. -/
theorem check_register_z_and_n_frame (c : CPU) (v : Nat) :
    (c.check_register_z_and_n v).register_a = c.register_a ∧
    (c.check_register_z_and_n v).register_x = c.register_x ∧
    (c.check_register_z_and_n v).register_y = c.register_y ∧
    (c.check_register_z_and_n v).memory = c.memory ∧
    (c.check_register_z_and_n v).program_counter = c.program_counter ∧
    (c.check_register_z_and_n v).stack_pointer = c.stack_pointer := by
  unfold CPU.check_register_z_and_n
  by_cases hz : v = 0 <;> by_cases hn : v &&& 0x80 ≠ 0 <;> simp [hz, hn]

/-- C9.  No instruction handler advances the program counter or touches
memory: `lda` (any mode), `tax` and `inx` leave `program_counter`,
`stack_pointer` and the memory array unchanged; `tax` and `inx` also leave
`register_a` unchanged, and `lda` leaves `register_x` and `register_y`
unchanged.  Operand-byte skipping happens only in `step`, the dispatch
loop. -/
theorem instruction_handlers_frame (c : CPU) (mode : AddressingMode) :
    (∀ c', c.lda mode = some c' →
      c'.program_counter = c.program_counter ∧
      c'.stack_pointer = c.stack_pointer ∧
      c'.memory = c.memory ∧
      c'.register_x = c.register_x ∧
      c'.register_y = c.register_y) ∧
    ((c.tax).program_counter = c.program_counter ∧
      (c.tax).stack_pointer = c.stack_pointer ∧
      (c.tax).memory = c.memory ∧
      (c.tax).register_a = c.register_a) ∧
    ((c.inx).program_counter = c.program_counter ∧
      (c.inx).stack_pointer = c.stack_pointer ∧
      (c.inx).memory = c.memory ∧
      (c.inx).register_a = c.register_a) := by
  refine ⟨?_, ?_, ?_⟩
  · intro c' h
    unfold CPU.lda at h
    cases ha : c.get_operand_address mode with
    | none => rw [ha] at h; simp at h
    | some addr =>
      rw [ha] at h
      simp only [Option.bind_eq_bind, Option.some_bind] at h
      cases hr : c.mem_read addr with
      | none => rw [hr] at h; simp at h
      | some value =>
        rw [hr] at h
        simp only [Option.some_bind, pure, Option.some_inj] at h
        subst h
        have hf := check_register_z_and_n_frame { c with register_a := value } value
        exact ⟨hf.2.2.2.2.1, hf.2.2.2.2.2, hf.2.2.2.1, hf.2.1, hf.2.2.1⟩
  · have hf := check_register_z_and_n_frame { c with register_x := c.register_a } c.register_a
    exact ⟨hf.2.2.2.2.1, hf.2.2.2.2.2, hf.2.2.2.1, hf.1⟩
  · have hf := check_register_z_and_n_frame { c with register_x := (c.register_x + 1) % 256 }
      ((c.register_x + 1) % 256)
    exact ⟨hf.2.2.2.2.1, hf.2.2.2.2.2, hf.2.2.2.1, hf.1⟩

/-- C10.  The ZeroPage, ZeroPage,X and ZeroPage,Y modes always resolve to
an effective address below `0x100`: the index register is added with 8-bit
wraparound before zero-extension. -/
theorem zero_page_modes_stay_in_zero_page (c : CPU) (addr : Nat)
    (hbyte : c.memory c.program_counter < 256) :
    (c.get_operand_address .ZeroPage = some addr → addr < 0x100) ∧
    (c.get_operand_address .ZeroPage_X = some addr → addr < 0x100) ∧
    (c.get_operand_address .ZeroPage_Y = some addr → addr < 0x100) := by
  by_cases hpc : c.program_counter < MEM_SIZE
  · refine ⟨?_, ?_, ?_⟩ <;> intro h <;>
      simp only [CPU.get_operand_address, CPU.mem_read, if_pos hpc,
        Option.bind_eq_bind, Option.some_bind, pure, Option.some_inj] at h <;>
      omega
  · refine ⟨?_, ?_, ?_⟩ <;> intro h <;>
      simp [CPU.get_operand_address, CPU.mem_read, if_neg hpc] at h


/-- Witness for C9: `lda` Immediate on a fresh CPU. -/
theorem instruction_handlers_frame_witness :
    (CPU.new.lda .Immediate = some (CPU.new.check_register_z_and_n 0)) ∧
    (CPU.new.check_register_z_and_n 0).program_counter = CPU.new.program_counter ∧
    (CPU.new.check_register_z_and_n 0).memory = CPU.new.memory :=
  ⟨rfl, ((instruction_handlers_frame CPU.new .Immediate).1 _ rfl).1,
    ((instruction_handlers_frame CPU.new .Immediate).1 _ rfl).2.2.1⟩

/-- Witness for C10: ZeroPage mode on a fresh CPU resolves to address 0. -/
theorem zero_page_modes_stay_in_zero_page_witness :
    CPU.new.memory CPU.new.program_counter < 256 ∧
    CPU.new.get_operand_address .ZeroPage = some 0 ∧ (0 : Nat) < 0x100 :=
  ⟨by decide, rfl, (zero_page_modes_stay_in_zero_page CPU.new 0 (by decide)).1 rfl⟩

end NesCpu
